import Mathlib

/-!
Verification of the deep-research orchestrator's job execution engine.

This file shallowly embeds the core state and operations of the orchestrator
(`src/services/worker.ts`, `src/repositories/jobRepository.ts`, `src/index.ts`)
and proves or refutes the specification claims about them.  Database rows are
modelled as Lean structures, SQL updates as list transformations, and the
executor's control flow as executable functions.  Timestamps are `Int`
milliseconds (JavaScript epoch numbers).  Durable-store writes are modelled as
always succeeding; external tool calls may fail where the code handles failure.
-/

namespace DeepResearch

/-- Job status values (`research_jobs.status`).  The runtime uses the seven
string values below (`src/index.ts` assigns `paused` and
`clarification_required` beyond the five listed in `types/job.ts`). -/
inductive JStatus
  | queued
  | running
  | paused
  | cancelled
  | completed
  | error
  | clarificationRequired
deriving DecidableEq, Repr

/-- The status strings as they appear in the database and in
`JobControlError` messages. -/
def statusText : JStatus → String
  | .queued => "queued"
  | .running => "running"
  | .paused => "paused"
  | .cancelled => "cancelled"
  | .completed => "completed"
  | .error => "error"
  | .clarificationRequired => "clarification_required"

/-- Step status values (`research_steps.status`); `part` models the source's
string value for a partially completed step. -/
inductive StepStatus
  | pending
  | running
  | completed
  | part
  | error
deriving DecidableEq, Repr

/-- A JSON metadata value as classified by `hasMetadataValue` in
`src/index.ts`: null/undefined, string, array, object (only its key count is
inspected), or any other primitive (number, boolean, ...). -/
inductive MetaValue
  | nullV
  | strV (s : String)
  | arrV (xs : List MetaValue)
  | objV (fieldCount : Nat)
  | otherV

/-- A note row (`notes` table), restricted to the fields the synthesis
packer reads (`Worker.buildFinalReport` / `Worker.selectNotesForSynthesis`). -/
structure NoteRec where
  id : Nat
  importance : Nat
  token_count : Nat
deriving DecidableEq, Repr

/-- Comparator order of `Worker.selectNotesForSynthesis`:
`b.importance - a.importance`, ties broken by `b.token_count - a.token_count`.
`noteBefore m n` holds when the comparator strictly orders `m` before `n`,
i.e. the JavaScript comparator returns a negative number on `(m, n)`. -/
def noteBefore (m n : NoteRec) : Bool :=
  decide (n.importance < m.importance) ||
    (decide (n.importance = m.importance) && decide (n.token_count < m.token_count))

/-- Stable insertion used to model `Array.prototype.sort` (stable per
ES2019): `n` is placed before the first element not strictly before it, so
ties keep their original relative order. -/
def insertNoteSorted (n : NoteRec) : List NoteRec → List NoteRec
  | [] => [n]
  | m :: rest => if noteBefore m n then m :: insertNoteSorted n rest else n :: m :: rest

/-- `Worker.selectNotesForSynthesis`: sort notes by importance descending,
then token_count descending (stable). -/
def selectNotesForSynthesis (notes : List NoteRec) : List NoteRec :=
  notes.foldr insertNoteSorted []

/-- The packing loop of `Worker.buildFinalReport` (worker.ts lines 721-731):
break once `packed.length` reaches the cap (modelled by `cap` counting down);
skip a note when `budget - note.token_count <= 0`; otherwise select it and
deduct its token_count from the remaining budget. -/
def packNotesLoop (cap : Nat) (budget : Int) : List NoteRec → List NoteRec
  | [] => []
  | n :: rest =>
    if cap = 0 then []
    else if budget - (n.token_count : Int) ≤ 0 then packNotesLoop cap budget rest
    else n :: packNotesLoop (cap - 1) (budget - (n.token_count : Int)) rest

/-- Context packer: sort all notes, then run the greedy budget loop.
`budget` corresponds to `llm.maxContext - 2000 - llm.maxTokens` and `cap` to
`worker.maxNotesForSynth` in the source. -/
def packNotes (cap : Nat) (budget : Int) (notes : List NoteRec) : List NoteRec :=
  packNotesLoop cap budget (selectNotesForSynthesis notes)

/-- Total token_count of a list of notes, as an integer. -/
def notesTokens (notes : List NoteRec) : Int :=
  (notes.map fun n => (n.token_count : Int)).sum

/-- Scenario S5 of the spec: 40 notes with importance 5,4,3,... (clamped to
the importance floor 1) and token_count 500 each. -/
def scenarioNotes : List NoteRec :=
  (List.range 40).map fun k => { id := k, importance := max (5 - k) 1, token_count := 500 }

/-- The spec's packing contract (section 4.3), taken at its word: scanning
the sorted list, a note is selected when adding it does not overflow the
remaining budget (`token_count ≤ budget`), skipped when adding it would
overflow (`token_count > budget`), and scanning stops when the cap is
exhausted. -/
inductive SpecPackRel : Int → Nat → List NoteRec → List NoteRec → Prop
  | nil (budget : Int) (cap : Nat) : SpecPackRel budget cap [] []
  | capStop (budget : Int) (l : List NoteRec) : SpecPackRel budget 0 l []
  | take (budget : Int) (cap : Nat) (n : NoteRec) (rest out : List NoteRec) :
      cap ≠ 0 → (n.token_count : Int) ≤ budget →
      SpecPackRel (budget - (n.token_count : Int)) (cap - 1) rest out →
      SpecPackRel budget cap (n :: rest) (n :: out)
  | skip (budget : Int) (cap : Nat) (n : NoteRec) (rest out : List NoteRec) :
      cap ≠ 0 → (n.token_count : Int) > budget →
      SpecPackRel budget cap rest out →
      SpecPackRel budget cap (n :: rest) out

/-- The packing contract amended to what the code enforces: a note is
selected only while it leaves a strictly positive remaining budget
(`budget - token_count > 0`); a note with `budget - token_count ≤ 0` is
skipped even when it would exactly exhaust the budget. -/
inductive SpecPackRelStrict : Int → Nat → List NoteRec → List NoteRec → Prop
  | nil (budget : Int) (cap : Nat) : SpecPackRelStrict budget cap [] []
  | capStop (budget : Int) (l : List NoteRec) : SpecPackRelStrict budget 0 l []
  | take (budget : Int) (cap : Nat) (n : NoteRec) (rest out : List NoteRec) :
      cap ≠ 0 → budget - (n.token_count : Int) > 0 →
      SpecPackRelStrict (budget - (n.token_count : Int)) (cap - 1) rest out →
      SpecPackRelStrict budget cap (n :: rest) (n :: out)
  | skip (budget : Int) (cap : Nat) (n : NoteRec) (rest out : List NoteRec) :
      cap ≠ 0 → budget - (n.token_count : Int) ≤ 0 →
      SpecPackRelStrict budget cap rest out →
      SpecPackRelStrict budget cap (n :: rest) out

/-! ## Metadata and job intake (`src/index.ts`) -/

mutual

/-- `hasMetadataValue` from `src/index.ts`: null/undefined is no value; a
string has a value when it is not whitespace-only (`value.trim().length > 0`,
modelled as: some character is not whitespace); an array has a value when
some entry does; an object has a value when it has at least one key; any
other primitive counts as a value. -/
def hasMetadataValue : MetaValue → Bool
  | .nullV => false
  | .strV s => s.data.any fun c => !c.isWhitespace
  | .arrV xs => hasMetadataValueList xs
  | .objV fieldCount => fieldCount != 0
  | .otherV => true

/-- `value.some((entry) => hasMetadataValue(entry))` over an array. -/
def hasMetadataValueList : List MetaValue → Bool
  | [] => false
  | v :: rest => hasMetadataValue v || hasMetadataValueList rest

end

/-- A metadata bag: a JSON object, as an association list. -/
abbrev Metadata := List (String × MetaValue)

/-- `bag[key]` on a JSON object: the first binding for the key, if any. -/
def metaLookup (md : Metadata) (k : String) : Option MetaValue :=
  (md.find? fun p => p.1 == k).map Prod.snd

/-- The five recognized clarification keys (`REQUIRED_METADATA_FIELDS`). -/
def requiredClarificationKeys : List String :=
  ["time_horizon", "region_focus", "data_modalities", "integration_targets",
   "quality_constraints"]

/-- `collectClarificationPrompts`: the required keys whose metadata value is
absent or has no value. -/
def collectClarificationPrompts (md : Metadata) : List String :=
  requiredClarificationKeys.filter fun k =>
    match metaLookup md k with
    | none => true
    | some v => !hasMetadataValue v

/-- The status chosen by `createJobFromPayload`:
`clarification_required` when some clarification prompt is outstanding,
`queued` otherwise. -/
def intakeStatus (md : Metadata) : JStatus :=
  if (collectClarificationPrompts md).length ≠ 0 then .clarificationRequired else .queued

mutual

/-- Spec-side notion of a blank metadata value, written from the spec's
words ("missing or blank"): null, a whitespace-only string, an array all of
whose entries are blank, or an empty object. -/
def blankValue : MetaValue → Prop
  | .nullV => True
  | .strV s => ∀ c ∈ s.data, c.isWhitespace
  | .arrV xs => blankValueList xs
  | .objV fieldCount => fieldCount = 0
  | .otherV => False

/-- Every entry of the array is blank. -/
def blankValueList : List MetaValue → Prop
  | [] => True
  | v :: rest => blankValue v ∧ blankValueList rest

end

/-- Spec-side "the key is missing or blank in the job's metadata". -/
def missingOrBlank (md : Metadata) (k : String) : Prop :=
  match metaLookup md k with
  | none => True
  | some v => blankValue v

/-! ## Job rows and the control-plane operations -/

/-- A `research_jobs` row.  `report_assets` is abstracted to its presence
and an identifying payload; all timestamps are epoch milliseconds. -/
structure JobRow where
  id : Nat := 0
  status : JStatus
  created_at : Int := 0
  updated_at : Int := 0
  started_at : Option Int := none
  last_heartbeat : Option Int := none
  completed_at : Option Int := none
  max_duration_seconds : Option Int := none
  final_report : Option String := none
  report_assets : Option String := none
  error : Option String := none
deriving DecidableEq, Repr

/-- A freshly inserted job row (`enqueueJob` with the status chosen by
`createJobFromPayload`): every nullable column starts NULL. -/
def intakeJob (md : Metadata) (t : Int) : JobRow :=
  { status := intakeStatus md, created_at := t, updated_at := t }

/-- Stable insertion by `created_at` ascending, used to model
`ORDER BY created_at`. -/
def insertByCreated (j : JobRow) : List JobRow → List JobRow
  | [] => [j]
  | m :: rest => if m.created_at ≤ j.created_at then m :: insertByCreated j rest
      else j :: m :: rest

/-- The jobs table in `created_at` order. -/
def orderByCreated (jobs : List JobRow) : List JobRow :=
  jobs.foldr insertByCreated []

/-- `claimNextQueuedJob`: the row returned by
`SELECT * FROM research_jobs WHERE status = 'queued' ORDER BY created_at
FOR UPDATE SKIP LOCKED LIMIT 1` — the first queued row in creation order. -/
def claimNextQueuedJob (jobs : List JobRow) : Option JobRow :=
  (orderByCreated jobs).find? fun j => j.status == .queued

/-- `startJobById` (`src/index.ts` lines 560-572): for a non-paused job,
reply 400 and leave the row untouched; for a paused job set status queued
and null out error, final_report, report_assets and completed_at.  The
result pairs the (possibly updated) row with the HTTP outcome. -/
def startJobById (j : JobRow) (t : Int) : JobRow × Except String JStatus :=
  if j.status ≠ .paused then
    (j, .error ("Cannot start job in status " ++ statusText j.status))
  else
    ({ j with status := .queued, error := none, final_report := none,
               report_assets := none, completed_at := none,
               updated_at := t, last_heartbeat := some t },
     .ok .queued)

/-- Merge clarification responses over the existing metadata
(`{ ...job.metadata, ...responses }`): bindings in `responses` win. -/
def mergeMetadata (md responses : Metadata) : Metadata :=
  responses ++ md.filter fun p => responses.all fun q => q.1 != p.1

/-- One durable transition of a single job row.  Each constructor is one
call site of `updateJobStatus` / `claimNextQueuedJob` / `rescueStaleJobs` /
`touchJobHeartbeat` in the source; `updateJobStatus` always refreshes
`updated_at` and `last_heartbeat` alongside the listed fields. -/
inductive CtrlStep : JobRow → JobRow → Prop
  /-- The claimer (`claimNextQueuedJob` UPDATE): queued → running. -/
  | claim (j : JobRow) (t : Int) :
      j.status = .queued →
      CtrlStep j { j with status := .running, started_at := some t,
                          updated_at := t, last_heartbeat := some t }
  /-- `pauseJobById`: running or queued → paused. -/
  | pause (j : JobRow) (t : Int) :
      j.status = .running ∨ j.status = .queued →
      CtrlStep j { j with status := .paused, updated_at := t, last_heartbeat := some t }
  /-- `cancelJobById`: any status except completed (400) and cancelled
  (no write) → cancelled. -/
  | cancel (j : JobRow) (t : Int) :
      j.status ≠ .completed → j.status ≠ .cancelled →
      CtrlStep j { j with status := .cancelled, updated_at := t, last_heartbeat := some t }
  /-- `startJobById`: paused → queued, clearing error, final_report,
  report_assets and completed_at. -/
  | start (j : JobRow) (t : Int) :
      j.status = .paused →
      CtrlStep j { j with status := .queued, error := none, final_report := none,
                          report_assets := none, completed_at := none,
                          updated_at := t, last_heartbeat := some t }
  /-- `submitClarification`: clarification_required → queued when all five
  keys now have values, else stays clarification_required; clears error. -/
  | clarify (j : JobRow) (responses : Metadata) (md : Metadata) (t : Int) :
      j.status = .clarificationRequired →
      CtrlStep j { j with status := intakeStatus (mergeMetadata md responses),
                          error := none, updated_at := t, last_heartbeat := some t }
  /-- `rescueStaleJobs` job UPDATE: running → queued, clearing started_at
  and refreshing last_heartbeat. -/
  | rescue (j : JobRow) (t : Int) :
      j.status = .running →
      CtrlStep j { j with status := .queued, started_at := none,
                          updated_at := t, last_heartbeat := some t }
  /-- `touchJobHeartbeat`: refresh last_heartbeat and updated_at only. -/
  | heartbeat (j : JobRow) (t : Int) :
      CtrlStep j { j with updated_at := t, last_heartbeat := some t }
  /-- The executor's terminal success write (worker.ts lines 220-224): set
  status completed together with final_report, report_assets and
  completed_at.  Only the executor that claimed the job reaches this write,
  and a completed job is never claimed again, so the pre-state is never
  completed (the control API may have moved it to paused / cancelled /
  clarification_required since the last cooperative check). -/
  | workerCompleted (j : JobRow) (t : Int) (report assets : String) :
      j.status ≠ .completed →
      CtrlStep j { j with status := .completed, final_report := some report,
                          report_assets := some assets, completed_at := some t,
                          updated_at := t, last_heartbeat := some t }
  /-- The tick error handler (worker.ts lines 146-149): when `processJob`
  throws, set status error and record the error text.  With durable writes
  modelled as succeeding, `processJob` cannot throw after its completed
  update, so the pre-state is never completed. -/
  | workerError (j : JobRow) (t : Int) (msg : String) :
      j.status ≠ .completed →
      CtrlStep j { j with status := .error, error := some msg,
                          updated_at := t, last_heartbeat := some t }

/-- Job rows reachable from intake through the durable transitions. -/
inductive ReachableJob : JobRow → Prop
  | intake (md : Metadata) (t : Int) : ReachableJob (intakeJob md t)
  | step {j j' : JobRow} : ReachableJob j → CtrlStep j j' → ReachableJob j'

/-! ## Rescue sweeper (`rescueStaleJobs`, jobRepository.ts lines 377-449) -/

structure RescueParams where
  startThresholdMs : Int
  heartbeatThresholdMs : Int
  graceMs : Int
deriving DecidableEq, Repr

inductive RescueReason
  | start
  | heartbeat
deriving DecidableEq, Repr

/-- The sweep's detection predicate for one running row, translated from
the row loop of `rescueStaleJobs`: `startedMs = started_at ?? created_at`;
without steps, rescue with reason start when `startedMs` is truthy
(`if (startedMs && ...)`: a zero timestamp is falsy and the row is
skipped) and `now - startedMs` exceeds the start threshold; with steps,
the base is `last_heartbeat ?? updated_at` (`created_at` and `updated_at`
are NOT NULL columns), a zero base skips the row
(`if (!heartbeatBase) continue`), and the threshold is capped by
`max_duration_seconds * 1000 + graceMs` when that column is set. -/
def rescueReason (p : RescueParams) (now : Int) (hasSteps : Bool) (j : JobRow) :
    Option RescueReason :=
  let startedMs := j.started_at.getD j.created_at
  if !hasSteps then
    if startedMs ≠ 0 ∧ now - startedMs > p.startThresholdMs then some .start else none
  else
    let base := j.last_heartbeat.getD j.updated_at
    if base = 0 then none
    else
      let threshold :=
        match j.max_duration_seconds with
        | none => p.heartbeatThresholdMs
        | some d => min p.heartbeatThresholdMs (d * 1000 + p.graceMs)
      if now - base > threshold then some .heartbeat else none

/-- The spec's detection formulas (section 4.5), taken at their word with
`max` over the timestamps that are present: reason start when
`now − max(started_at, created_at)` exceeds the start threshold, reason
heartbeat when `now − max(last_heartbeat, updated_at, started_at)` exceeds
`min(heartbeatThreshold, max_duration_seconds × 1000 + graceMs)`. -/
def rescueReasonSpecMax (p : RescueParams) (now : Int) (hasSteps : Bool) (j : JobRow) :
    Option RescueReason :=
  let omax : Option Int → Int → Int := fun o x =>
    match o with
    | some v => max v x
    | none => x
  if !hasSteps then
    if now - omax j.started_at j.created_at > p.startThresholdMs then some .start else none
  else
    let base := omax j.last_heartbeat (omax j.started_at j.updated_at)
    let threshold :=
      match j.max_duration_seconds with
      | none => p.heartbeatThresholdMs
      | some d => min p.heartbeatThresholdMs (d * 1000 + p.graceMs)
    if now - base > threshold then some .heartbeat else none

/-! ## Rescue action (C7) -/

/-- A `research_steps` row, restricted to the fields the sweep touches. -/
structure StepRow where
  id : Nat
  job_id : Nat
  status : StepStatus
  step_order : Nat := 1
  updated_at : Int := 0
deriving DecidableEq, Repr

/-- `EXISTS (SELECT 1 FROM research_steps s WHERE s.job_id = j.id)`. -/
def jobHasSteps (steps : List StepRow) (jobId : Nat) : Bool :=
  steps.any fun s => s.job_id == jobId

/-- The ids of the running jobs the sweep selects for rescue
(`WHERE j.status = 'running'` plus the detection predicate). -/
def rescueTargets (p : RescueParams) (now : Int) (jobs : List JobRow)
    (steps : List StepRow) : List Nat :=
  (jobs.filter fun j =>
      j.status == .running && (rescueReason p now (jobHasSteps steps j.id) j).isSome).map
    fun j => j.id

/-- The job-table UPDATE of the rescue action, applied to one row. -/
def rescueJobUpdate (ids : List Nat) (now : Int) (j : JobRow) : JobRow :=
  if j.id ∈ ids then
    { j with status := .queued, started_at := none, updated_at := now,
             last_heartbeat := some now }
  else j

/-- The step-table UPDATE of the rescue action
(`WHERE job_id = ANY(ids) AND status = 'running'`), applied to one row. -/
def rescueStepUpdate (ids : List Nat) (now : Int) (s : StepRow) : StepRow :=
  if s.job_id ∈ ids ∧ s.status = .running then
    { s with status := .pending, updated_at := now }
  else s

/-- `rescueStaleJobs`: detect stale running jobs, set them back to queued
and reset their running steps to pending. -/
def rescueStaleJobs (p : RescueParams) (now : Int) (jobs : List JobRow)
    (steps : List StepRow) : List JobRow × List StepRow :=
  let ids := rescueTargets p now jobs steps
  (jobs.map (rescueJobUpdate ids now), steps.map (rescueStepUpdate ids now))

/-! ## Citation ledger (`Worker.ensureCitationNumber`, worker.ts 673-694) -/

/-- A `sources` row, restricted to the fields the hash reads. -/
structure SourceRec where
  url : Option String := none
  title : Option String := none
  raw_storage_url : Option String := none
deriving DecidableEq, Repr

/-- `Worker.hashSource` forms `url|title|raw_storage_url` (missing parts
empty) and digests it with SHA-1.  The ledger logic depends only on
equality of digests; the digest is modelled by its preimage string, so
equal triples get equal hashes and distinct triples distinct hashes
(SHA-1 collisions are out of scope). -/
def hashSource (s : SourceRec) : String :=
  s.url.getD "" ++ "|" ++ s.title.getD "" ++ "|" ++ s.raw_storage_url.getD ""

/-- A `citation_ledger` row for one job, in insertion order. -/
structure LedgerEntry where
  source_hash : String
  citation_number : Nat
  title : Option String := none
  url : Option String := none
deriving DecidableEq, Repr

/-- `findCitationByHash`: the ledger row for this job and hash, if any. -/
def findCitationByHash (ledger : List LedgerEntry) (h : String) : Option LedgerEntry :=
  ledger.find? fun e => e.source_hash == h

/-- `MAX(citation_number)` over the job's ledger, `0` when empty
(`COALESCE(MAX(citation_number), 0)`). -/
def maxCitationNumber (ledger : List LedgerEntry) : Nat :=
  ledger.foldl (fun m e => max m e.citation_number) 0

/-- `getNextCitationNumber`: `COALESCE(MAX(citation_number), 0) + 1`. -/
def getNextCitationNumber (ledger : List LedgerEntry) : Nat :=
  maxCitationNumber ledger + 1

/-- `Worker.ensureCitationNumber`: look the hash up; on a miss insert a new
entry numbered `getNextCitationNumber`.  Returns the citation number and
the updated ledger. -/
def ensureCitationNumber (ledger : List LedgerEntry) (s : SourceRec) :
    Nat × List LedgerEntry :=
  match findCitationByHash ledger (hashSource s) with
  | some e => (e.citation_number, ledger)
  | none =>
    let n := getNextCitationNumber ledger
    (n, ledger ++ [{ source_hash := hashSource s, citation_number := n,
                     title := (s.title <|> s.url), url := s.url }])

/-- A sequence of citation assignments for one job, processed sequentially
(as the executor does in section rendering): returns the citation numbers
handed out, in order, and the final ledger. -/
def assignRun : List SourceRec → List LedgerEntry → List Nat × List LedgerEntry
  | [], ledger => ([], ledger)
  | s :: rest, ledger =>
    let res := ensureCitationNumber ledger s
    let next := assignRun rest res.2
    (res.1 :: next.1, next.2)

/-- The ledger invariant: citation numbers are exactly `1..N` in insertion
order. -/
def DenseLedger (ledger : List LedgerEntry) : Prop :=
  ledger.map (fun e => e.citation_number) = List.range' 1 ledger.length

/-! ## Report finalization (worker.ts 195-218, 873-901) -/

/-- Digit run to its numeric value (`Number` on a digit string). -/
def digitsToNat (ds : List Char) : Nat :=
  ds.foldl (fun n c => n * 10 + (c.toNat - '0'.toNat)) 0

mutual

/-- `linkifyCitations`'s regex pass over the report text: replace
`[n]` not followed by `(` with `[n](#ref-n)` when `n` is in the ledger;
any other text is copied unchanged.  Models
`report.replace(/\[(\d+)\](?!\()/g, ...)`. -/
def linkifyScan (valid : List Nat) : List Char → List Char
  | [] => []
  | c :: rest =>
    if c = '[' then linkifyDigits valid [] rest
    else c :: linkifyScan valid rest
termination_by l => 2 * l.length
decreasing_by
  all_goals simp [List.length_cons]
  all_goals omega

/-- After an opening `[`: accumulate digits; on `]` not followed by `(`
with a nonempty digit run, rewrite the marker (when its number is in the
ledger); otherwise emit the scanned characters verbatim and continue, as
the regex engine does after a failed match. -/
def linkifyDigits (valid : List Nat) (acc : List Char) : List Char → List Char
  | [] => '[' :: acc.reverse
  | c :: rest =>
    if c.isDigit then linkifyDigits valid (c :: acc) rest
    else if c = ']' ∧ acc ≠ [] ∧ rest.head? ≠ some '(' then
      let ds := acc.reverse
      let n := digitsToNat ds
      if valid.contains n then
        ('[' :: ds ++ (']' :: '(' :: '#' :: 'r' :: 'e' :: 'f' :: '-' :: ds) ++ [')']) ++
          linkifyScan valid rest
      else ('[' :: ds ++ [']']) ++ linkifyScan valid rest
    else ('[' :: acc.reverse) ++ linkifyScan valid (c :: rest)
termination_by l => 2 * l.length + 1
decreasing_by
  all_goals simp [List.length_cons]
  all_goals omega

end

/-- What became of the job when the executor run ended. -/
inductive ExecOutcome
  /-- The run reached the completed update. -/
  | completedJob
  /-- A control signal was caught by the `try`/`catch` frame: the executor
  returned with no write to the job row. -/
  | haltedSilently (s : JStatus)
  /-- The exception escaped `processJob`: `tick` set status `error` with
  the given error text. -/
  | markedError (msg : String)
deriving DecidableEq, Repr

/-- True for the statuses on which `ensureJobActive` throws. -/
def haltStatus : JStatus → Bool
  | .paused => true
  | .cancelled => true
  | .clarificationRequired => true
  | _ => false

/-- `String(error)` on a `JobControlError` whose message is
`Job <status>` and whose name is `JobControlError`. -/
def tickErrorText (s : JStatus) : String :=
  "JobControlError: Job " ++ statusText s

/-- The synthesize-phase checkpoint (worker.ts line 199), the first one
inside the `try`: a control signal observed here is caught and the
executor halts silently; otherwise the run completes.  `observe k` is the
job status the k-th `ensureJobActive` call reads. -/
def finalizePhase (observe : Nat → JStatus) (k : Nat) : ExecOutcome :=
  if haltStatus (observe k) then .haltedSilently (observe k) else .completedJob

/-- The step loop (worker.ts 185-193) over the remaining pending steps,
with the pre-step checkpoint (line 186) and post-step checkpoint
(line 192), both executed before the `try` block: a control signal
observed at either escapes to `tick`'s catch. -/
def stepLoop (observe : Nat → JStatus) : Nat → Nat → ExecOutcome
  | 0, k => finalizePhase observe k
  | remaining + 1, k =>
    if haltStatus (observe k) then .markedError (tickErrorText (observe k))
    else if haltStatus (observe (k + 1)) then
      .markedError (tickErrorText (observe (k + 1)))
    else stepLoop observe remaining (k + 2)

/-- One `processJob` run over a job with `numSteps` pending steps, in
classic synthesis mode: the initial checkpoint (line 162) and the step
loop run before the `try` block; the synthesize checkpoint runs inside
it. -/
def processJobRun (observe : Nat → JStatus) (numSteps : Nat) : ExecOutcome :=
  if haltStatus (observe 0) then .markedError (tickErrorText (observe 0))
  else stepLoop observe numSteps 1

/-- The status schedule of scenario S3: the job runs with three steps and
an operator sets status cancelled while step 2 executes, so every
checkpoint from the post-step-2 boundary on observes `cancelled`. -/
def cancelMidStepSchedule (k : Nat) : JStatus :=
  if k ≥ 4 then .cancelled else .running

/-! ## Packing lemmas -/

/-- The packing loop never selects more notes than the cap. -/
theorem packNotesLoop_length_le (l : List NoteRec) :
    ∀ cap budget, (packNotesLoop cap budget l).length ≤ cap := by
  induction l with
  | nil => intro cap budget; simp [packNotesLoop]
  | cons n rest ih =>
    intro cap budget
    unfold packNotesLoop
    split
    · simp
    · split
      · exact ih cap budget
      · next hcap _ =>
        have := ih (cap - 1) (budget - (n.token_count : Int))
        simp only [List.length_cons]
        omega

/-- The packing loop's output is a sublist of its input. -/
theorem packNotesLoop_sublist (l : List NoteRec) :
    ∀ cap budget, (packNotesLoop cap budget l).Sublist l := by
  induction l with
  | nil => intro cap budget; simp [packNotesLoop]
  | cons n rest ih =>
    intro cap budget
    unfold packNotesLoop
    split
    · simp
    · split
      · exact (ih cap budget).cons n
      · exact (ih (cap - 1) (budget - (n.token_count : Int))).cons₂ n

/-- The packing loop keeps the selected total within the budget. -/
theorem packNotesLoop_tokens_le (l : List NoteRec) :
    ∀ cap budget, 0 ≤ budget → notesTokens (packNotesLoop cap budget l) ≤ budget := by
  induction l with
  | nil => intro cap budget hb; simpa [packNotesLoop, notesTokens] using hb
  | cons n rest ih =>
    intro cap budget hb
    unfold packNotesLoop
    split
    · simpa [notesTokens] using hb
    · split
      · exact ih cap budget hb
      · next hcap hfit =>
        have hrest := ih (cap - 1) (budget - (n.token_count : Int)) (by omega)
        simp only [notesTokens, List.map_cons, List.sum_cons] at hrest ⊢
        omega

/-- The packing loop realizes the strict greedy contract. -/
theorem packNotesLoop_strictRel (l : List NoteRec) :
    ∀ cap budget, SpecPackRelStrict budget cap l (packNotesLoop cap budget l) := by
  induction l with
  | nil => intro cap budget; exact SpecPackRelStrict.nil budget cap
  | cons n rest ih =>
    intro cap budget
    unfold packNotesLoop
    split
    · next hcap =>
      subst hcap
      exact SpecPackRelStrict.capStop budget (n :: rest)
    · split
      · next hcap hskip =>
        exact SpecPackRelStrict.skip budget cap n rest _ hcap hskip (ih cap budget)
      · next hcap hfit =>
        exact SpecPackRelStrict.take budget cap n rest _ hcap (by omega)
          (ih (cap - 1) (budget - (n.token_count : Int)))

/-- C5 counterexample: on scenario S5 (40 notes of 500 tokens each in
descending-importance order, budget 3000, cap 8) the packer does not
select 6 notes — the sixth note would leave a remaining budget of exactly
0, which the loop's `budget - token_count <= 0` guard rejects, so only 5
notes are selected. -/
theorem scenario_packing_selects_five_not_six :
    packNotes 8 3000 scenarioNotes ≠ (selectNotesForSynthesis scenarioNotes).take 6 ∧
      (packNotes 8 3000 scenarioNotes).length = 5 := by
  constructor
  · decide
  · decide

/-- C5 (amended): on scenario S5 the packer selects exactly the 5
highest-importance notes (the note that would exactly exhaust the budget
is skipped), and for every input the packer never returns more notes than
the cap. -/
theorem scenario_packing_amended :
    packNotes 8 3000 scenarioNotes = (selectNotesForSynthesis scenarioNotes).take 5 ∧
      ∀ cap budget notes, (packNotes cap budget notes).length ≤ cap := by
  refine ⟨by decide, ?_⟩
  intro cap budget notes
  exact packNotesLoop_length_le (selectNotesForSynthesis notes) cap budget

/-- A note that would exactly exhaust the budget. -/
def exactFitNote : NoteRec := { id := 0, importance := 3, token_count := 1000 }

/-- C6 counterexample: with one 1000-token note, budget 1000 and cap 2,
the packer returns the empty selection although the note does not overflow
the budget — the spec's greedy contract (skip only on overflow) does not
relate this input to the code's output. -/
theorem packing_contract_counterexample :
    ¬ SpecPackRel 1000 2 [exactFitNote] (packNotes 2 1000 [exactFitNote]) := by
  have hpack : packNotes 2 1000 [exactFitNote] = [] := by decide
  rw [hpack]
  intro h
  cases h with
  | skip _ _ _ _ _ _ hover _ => simp [exactFitNote] at hover

/-- C6 (amended): for every note list and non-negative budget, the
packer's output stays within the budget, has at most `cap` notes, is a
sublist of the (importance desc, token_count desc) order, and follows the
greedy scan in which a note is skipped exactly when it would not leave a
strictly positive remaining budget. -/
theorem packer_contract (notes : List NoteRec) (cap : Nat) (budget : Int)
    (hb : 0 ≤ budget) :
    notesTokens (packNotes cap budget notes) ≤ budget ∧
      (packNotes cap budget notes).length ≤ cap ∧
      (packNotes cap budget notes).Sublist (selectNotesForSynthesis notes) ∧
      SpecPackRelStrict budget cap (selectNotesForSynthesis notes)
        (packNotes cap budget notes) :=
  ⟨packNotesLoop_tokens_le (selectNotesForSynthesis notes) cap budget hb,
   packNotesLoop_length_le (selectNotesForSynthesis notes) cap budget,
   packNotesLoop_sublist (selectNotesForSynthesis notes) cap budget,
   packNotesLoop_strictRel (selectNotesForSynthesis notes) cap budget⟩

/-- C6 witness: the amended contract at the counterexample input. -/
theorem packer_contract_witness :
    notesTokens (packNotes 2 1000 [exactFitNote]) ≤ 1000 ∧
      (packNotes 2 1000 [exactFitNote]).length ≤ 2 ∧
      (packNotes 2 1000 [exactFitNote]).Sublist
        (selectNotesForSynthesis [exactFitNote]) ∧
      SpecPackRelStrict 1000 2 (selectNotesForSynthesis [exactFitNote])
        (packNotes 2 1000 [exactFitNote]) :=
  packer_contract [exactFitNote] 2 1000 (by decide)

/-! ## Completion-fields invariant (C2) -/

/-- The invariant of spec section 8, item 3: a completed job carries
final_report, report_assets and completed_at, and a non-completed job
carries none of them. -/
def CompletionFieldsInv (j : JobRow) : Prop :=
  (j.status = .completed →
      j.final_report ≠ none ∧ j.report_assets ≠ none ∧ j.completed_at ≠ none) ∧
    (j.status ≠ .completed →
      j.final_report = none ∧ j.report_assets = none ∧ j.completed_at = none)

/-- Intake never creates a completed job. -/
theorem intakeStatus_ne_completed (md : Metadata) : intakeStatus md ≠ .completed := by
  unfold intakeStatus
  split <;> simp

/-- Every durable transition preserves the completion-fields invariant. -/
theorem ctrlStep_preserves_inv {j j' : JobRow} (h : CtrlStep j j')
    (hj : CompletionFieldsInv j) : CompletionFieldsInv j' := by
  obtain ⟨hpos, hneg⟩ := hj
  cases h with
  | claim t hq =>
    exact ⟨fun hc => by simp at hc, fun _ => hneg (by simp [hq])⟩
  | pause t hq =>
    refine ⟨fun hc => by simp at hc, fun _ => ?_⟩
    rcases hq with hq | hq <;> exact hneg (by simp [hq])
  | cancel t hc hcc =>
    exact ⟨fun h => by simp at h, fun _ => hneg hc⟩
  | start t hp =>
    exact ⟨fun h => by simp at h, fun _ => by simp⟩
  | clarify responses md t hs =>
    refine ⟨fun hc => ?_, fun _ => hneg (by simp [hs])⟩
    exact absurd (by simpa using hc) (intakeStatus_ne_completed (mergeMetadata md responses))
  | rescue t hr =>
    exact ⟨fun h => by simp at h, fun _ => hneg (by simp [hr])⟩
  | heartbeat t =>
    exact ⟨fun hc => by simpa using hpos (by simpa using hc),
           fun hc => by simpa using hneg (by simpa using hc)⟩
  | workerCompleted t report assets hnc =>
    exact ⟨fun _ => by simp, fun h => absurd rfl h⟩
  | workerError t msg hnc =>
    exact ⟨fun h => by simp at h, fun _ => hneg hnc⟩

/-- Every reachable job row satisfies the completion-fields invariant. -/
theorem reachable_inv {j : JobRow} (h : ReachableJob j) : CompletionFieldsInv j := by
  induction h with
  | intake md t =>
    constructor
    · intro hc
      exact absurd hc (by simpa [intakeJob] using intakeStatus_ne_completed md)
    · intro _; simp [intakeJob]
  | step _ hstep ih => exact ctrlStep_preserves_inv hstep ih

/-- C2: in every reachable state a job is completed exactly when
final_report, report_assets and completed_at are all non-null, and a
non-completed job carries none of the three. -/
theorem completed_iff_fields (j : JobRow) (h : ReachableJob j) :
    (j.status = .completed ↔
        j.final_report ≠ none ∧ j.report_assets ≠ none ∧ j.completed_at ≠ none) ∧
      (j.status ≠ .completed →
        j.final_report = none ∧ j.report_assets = none ∧ j.completed_at = none) := by
  obtain ⟨hpos, hneg⟩ := reachable_inv h
  refine ⟨⟨hpos, fun hf => ?_⟩, hneg⟩
  by_contra hc
  exact hf.1 (hneg hc).1

/-- Metadata carrying values for all five clarification keys. -/
def fullMetadata : Metadata :=
  [("time_horizon", .strV "12-18 months"), ("region_focus", .strV "EU"),
   ("data_modalities", .strV "blogs, PDFs"), ("integration_targets", .strV "SharePoint"),
   ("quality_constraints", .strV "neutral tone")]

/-- A concrete job after intake with full metadata. -/
def demoJob0 : JobRow := intakeJob fullMetadata 0

/-- The demo job once claimed by the worker. -/
def demoJob1 : JobRow :=
  { demoJob0 with status := .running, started_at := some 1,
                  updated_at := 1, last_heartbeat := some 1 }

/-- The demo job after the executor's completed update. -/
def demoCompletedJob : JobRow :=
  { demoJob1 with status := .completed, final_report := some "report",
                  report_assets := some "assets", completed_at := some 2,
                  updated_at := 2, last_heartbeat := some 2 }

/-- The demo job is reachable: intake → claim → completed update. -/
theorem demoCompletedJob_reachable : ReachableJob demoCompletedJob :=
  ReachableJob.step
    (ReachableJob.step (ReachableJob.intake fullMetadata 0)
      (CtrlStep.claim demoJob0 1 (by decide)))
    (CtrlStep.workerCompleted demoJob1 2 "report" "assets" (by decide))

/-- C2 witness: the invariant evaluated on a concrete reachable job. -/
theorem completed_iff_fields_witness :
    (demoCompletedJob.status = .completed ↔
        demoCompletedJob.final_report ≠ none ∧ demoCompletedJob.report_assets ≠ none ∧
          demoCompletedJob.completed_at ≠ none) ∧
      (demoCompletedJob.status ≠ .completed →
        demoCompletedJob.final_report = none ∧ demoCompletedJob.report_assets = none ∧
          demoCompletedJob.completed_at = none) :=
  completed_iff_fields demoCompletedJob demoCompletedJob_reachable

/-! ## C10: the start endpoint -/

/-- C10: `startJobById` rejects every non-paused job with a bad-request
error and leaves the row untouched — in particular a cancelled job can
never be returned to queued through it — and on a paused job it sets
status queued while nulling error, final_report, report_assets and
completed_at. -/
theorem start_endpoint_only_resumes_paused (j : JobRow) (t : Int) :
    (j.status ≠ .paused →
        startJobById j t =
          (j, .error ("Cannot start job in status " ++ statusText j.status))) ∧
      (j.status = .cancelled → (startJobById j t).1 = j) ∧
      (j.status = .paused →
        startJobById j t =
          ({ j with status := .queued, error := none, final_report := none,
                    report_assets := none, completed_at := none,
                    updated_at := t, last_heartbeat := some t },
           .ok .queued)) := by
  refine ⟨fun hne => ?_, fun hc => ?_, fun hp => ?_⟩
  · simp [startJobById, hne]
  · simp [startJobById, hc]
  · simp [startJobById, hp]

/-- A concrete cancelled job and a concrete paused job. -/
def demoCancelledJob : JobRow := { id := 7, status := .cancelled }

def demoPausedJob : JobRow :=
  { id := 8, status := .paused, final_report := some "stale",
    report_assets := some "stale", completed_at := some 5, error := some "boom" }

/-- C10 witness: the endpoint evaluated on the concrete jobs. -/
theorem start_endpoint_witness :
    (startJobById demoCancelledJob 9).1 = demoCancelledJob ∧
      startJobById demoPausedJob 9 =
        ({ demoPausedJob with status := .queued, error := none, final_report := none,
                              report_assets := none, completed_at := none,
                              updated_at := 9, last_heartbeat := some 9 },
         .ok .queued) :=
  ⟨(start_endpoint_only_resumes_paused demoCancelledJob 9).2.1 rfl,
   (start_endpoint_only_resumes_paused demoPausedJob 9).2.2 rfl⟩

/-! ## C4: the rescue detection predicate -/

def demoRescueParams : RescueParams :=
  { startThresholdMs := 120000, heartbeatThresholdMs := 60000, graceMs := 30000 }

/-- A running row whose heartbeat is stale (epoch 1000, truthy) but whose
`updated_at` is fresh.  The code bases the staleness check on
`last_heartbeat` alone when it is present and nonzero; the spec's `max`
formula would look at `updated_at`. -/
def staleHeartbeatRow : JobRow :=
  { id := 1, status := .running, created_at := 500, updated_at := 1000000,
    started_at := some 800, last_heartbeat := some 1000 }

/-- C4 counterexample: on a row with `last_heartbeat = 1000` and
`updated_at = 1000000` the code rescues with reason heartbeat while the
spec's `max(last_heartbeat, updated_at, started_at)` formula does not
rescue, so the detection predicate does not match the spec's formulas
exactly. -/
theorem rescue_detection_counterexample :
    rescueReason demoRescueParams 1000000 true staleHeartbeatRow =
        some .heartbeat ∧
      rescueReasonSpecMax demoRescueParams 1000000 true staleHeartbeatRow = none := by
  constructor <;> decide

/-- C4 (amended): the detection predicate uses the first-present
timestamp (`last_heartbeat` else `updated_at`; `started_at` else
`created_at`) rather than a `max`, and skips a row whose effective base
timestamp is 0 (the JavaScript truthiness guards).  On rows with a
positive `created_at` (as every real epoch-milliseconds timestamp is)
whose timestamps satisfy the orderings every writer maintains
(`created_at ≤ updated_at`; `updated_at ≤ last_heartbeat` when the
latter is set; `created_at ≤ started_at ≤ updated_at` when `started_at`
is set) both guards are vacuous and the predicate coincides with the
spec's `max` formulas. -/
theorem rescue_detection_matches_spec_on_ordered_rows (p : RescueParams)
    (now : Int) (hasSteps : Bool) (j : JobRow)
    (hpos : 0 < j.created_at)
    (hcu : j.created_at ≤ j.updated_at)
    (hlh : ∀ v ∈ j.last_heartbeat, j.updated_at ≤ v)
    (hst : ∀ v ∈ j.started_at, j.created_at ≤ v ∧ v ≤ j.updated_at) :
    rescueReason p now hasSteps j = rescueReasonSpecMax p now hasSteps j := by
  unfold rescueReason rescueReasonSpecMax
  cases hasSteps with
  | false =>
    cases hs : j.started_at with
    | none =>
      have h0 : j.created_at ≠ 0 := by omega
      simp [hs, h0]
    | some v =>
      have hv := hst v (by simp [hs])
      have h1 : v ⊔ j.created_at = v := max_eq_left hv.1
      have h0 : v ≠ 0 := by omega
      simp [hs, h1, h0]
  | true =>
    cases hl : j.last_heartbeat with
    | none =>
      have h0 : j.updated_at ≠ 0 := by omega
      cases hs : j.started_at with
      | none => simp [hl, hs, h0]
      | some v =>
        have hv := hst v (by simp [hs])
        have h1 : v ⊔ j.updated_at = j.updated_at := max_eq_right hv.2
        simp [hl, hs, h0, h1]
    | some w =>
      have hw := hlh w (by simp [hl])
      have h0 : w ≠ 0 := by omega
      cases hs : j.started_at with
      | none =>
        have h1 : w ⊔ j.updated_at = w := max_eq_left hw
        simp [hl, hs, h0, h1]
      | some v =>
        have hv := hst v (by simp [hs])
        have h1 : v ⊔ j.updated_at = j.updated_at := max_eq_right hv.2
        have h2 : w ⊔ j.updated_at = w := max_eq_left hw
        simp [hl, hs, h0, h1, h2]

/-- A well-ordered running row: heartbeat stale and every timestamp
ordering maintained by the writers, with a positive `created_at`. -/
def orderedStaleRow : JobRow :=
  { id := 2, status := .running, created_at := 1000, updated_at := 200000,
    started_at := some 100000, last_heartbeat := some 200000 }

/-- C4 witness: on the well-ordered row the code's predicate and the
spec's formula agree (both rescue with reason heartbeat at
`now = 400000`). -/
theorem rescue_detection_witness :
    rescueReason demoRescueParams 400000 true orderedStaleRow =
      rescueReasonSpecMax demoRescueParams 400000 true orderedStaleRow :=
  rescue_detection_matches_spec_on_ordered_rows demoRescueParams 400000 true
    orderedStaleRow (by decide) (by decide) (by decide) (by decide)

/-! ## C7: the rescue action and its frame -/

/-- C7: the rescue action sets each selected job back to queued with
started_at cleared and last_heartbeat refreshed, resets exactly the
running steps of selected jobs to pending, and leaves every other job and
step row unchanged; only running jobs are selected. -/
theorem rescue_action_frame (p : RescueParams) (now : Int) (jobs : List JobRow)
    (steps : List StepRow) :
    (∀ i j, jobs.get? i = some j → j.id ∉ rescueTargets p now jobs steps →
        (rescueStaleJobs p now jobs steps).1.get? i = some j) ∧
      (∀ i j, jobs.get? i = some j → j.id ∈ rescueTargets p now jobs steps →
        (rescueStaleJobs p now jobs steps).1.get? i =
          some { j with status := .queued, started_at := none,
                        updated_at := now, last_heartbeat := some now }) ∧
      (∀ i s, steps.get? i = some s →
        s.job_id ∈ rescueTargets p now jobs steps → s.status = .running →
        (rescueStaleJobs p now jobs steps).2.get? i =
          some { s with status := .pending, updated_at := now }) ∧
      (∀ i s, steps.get? i = some s →
        ¬ (s.job_id ∈ rescueTargets p now jobs steps ∧ s.status = .running) →
        (rescueStaleJobs p now jobs steps).2.get? i = some s) ∧
      (∀ jid ∈ rescueTargets p now jobs steps,
        ∃ j, j ∈ jobs ∧ j.id = jid ∧ j.status = .running) := by
  refine ⟨?_, ?_, ?_, ?_, ?_⟩
  · intro i j hji hnot
    simp only [rescueStaleJobs, List.get?_map, hji, Option.map_some]
    simp [rescueJobUpdate, hnot]
  · intro i j hji hmem
    simp only [rescueStaleJobs, List.get?_map, hji, Option.map_some]
    simp [rescueJobUpdate, hmem]
  · intro i s hsi hmem hrun
    simp only [rescueStaleJobs, List.get?_map, hsi, Option.map_some]
    simp [rescueStepUpdate, hmem, hrun]
  · intro i s hsi hnot
    have hfix : rescueStepUpdate (rescueTargets p now jobs steps) now s = s := by
      unfold rescueStepUpdate
      rw [if_neg hnot]
    simp only [rescueStaleJobs, List.get?_map, hsi, Option.map_some', hfix]
  · intro jid hmem
    simp only [rescueTargets, List.mem_map, List.mem_filter] at hmem
    obtain ⟨j, ⟨hj, hcond⟩, rfl⟩ := hmem
    refine ⟨j, hj, rfl, ?_⟩
    have := (Bool.and_eq_true _ _).mp hcond
    simpa using this.1

/-- A running step of the stale demo job, plus an already-completed one. -/
def demoRunningStep : StepRow := { id := 10, job_id := 1, status := .running }

def demoDoneStep : StepRow := { id := 11, job_id := 1, status := .completed }

/-- C7 witness: sweeping a table with the stale running job of the C4
counterexample requeues it, resets its running step and keeps its
completed step. -/
theorem rescue_action_witness :
    (rescueStaleJobs demoRescueParams 1000000 [staleHeartbeatRow]
          [demoRunningStep, demoDoneStep]).1.get? 0 =
        some { staleHeartbeatRow with status := .queued, started_at := none,
                                      updated_at := 1000000,
                                      last_heartbeat := some 1000000 } ∧
      (rescueStaleJobs demoRescueParams 1000000 [staleHeartbeatRow]
          [demoRunningStep, demoDoneStep]).2.get? 0 =
        some { demoRunningStep with status := .pending, updated_at := 1000000 } ∧
      (rescueStaleJobs demoRescueParams 1000000 [staleHeartbeatRow]
          [demoRunningStep, demoDoneStep]).2.get? 1 = some demoDoneStep :=
  ⟨(rescue_action_frame demoRescueParams 1000000 [staleHeartbeatRow]
      [demoRunningStep, demoDoneStep]).2.1 0 staleHeartbeatRow rfl (by decide),
   (rescue_action_frame demoRescueParams 1000000 [staleHeartbeatRow]
      [demoRunningStep, demoDoneStep]).2.2.1 0 demoRunningStep rfl (by decide) rfl,
   (rescue_action_frame demoRescueParams 1000000 [staleHeartbeatRow]
      [demoRunningStep, demoDoneStep]).2.2.2.1 1 demoDoneStep rfl (by decide)⟩

/-! ## C8: intake clarification gating and the claimer -/

mutual

/-- The spec-side blankness predicate coincides with the negation of the
code's `hasMetadataValue`. -/
theorem blankValue_iff (v : MetaValue) :
    blankValue v ↔ hasMetadataValue v = false := by
  cases v with
  | nullV => simp [blankValue, hasMetadataValue]
  | strV s =>
    simp [blankValue, hasMetadataValue, List.any_eq_false]
  | arrV xs => simpa [blankValue, hasMetadataValue] using blankValueList_iff xs
  | objV fieldCount => simp [blankValue, hasMetadataValue]
  | otherV => simp [blankValue, hasMetadataValue]

/-- List version of `blankValue_iff`. -/
theorem blankValueList_iff (xs : List MetaValue) :
    blankValueList xs ↔ hasMetadataValueList xs = false := by
  cases xs with
  | nil => simp [blankValueList, hasMetadataValueList]
  | cons v rest =>
    simp [blankValueList, hasMetadataValueList, Bool.or_eq_false_iff,
      blankValue_iff v, blankValueList_iff rest]

end

/-- The filter predicate of `collectClarificationPrompts` holds exactly on
the missing-or-blank keys. -/
theorem clarification_filter_iff (md : Metadata) (k : String) :
    (match metaLookup md k with
      | none => true
      | some v => !hasMetadataValue v) = true ↔ missingOrBlank md k := by
  unfold missingOrBlank
  cases h : metaLookup md k with
  | none => simp
  | some v => simp [blankValue_iff v]

/-- C8: intake assigns `clarification_required` exactly when one of the
five clarification keys is missing or blank, `queued` exactly when all
five carry values, and the claimer only ever returns a queued row (so it
never returns a clarification_required job). -/
theorem intake_gates_on_clarification (md : Metadata) :
    (intakeStatus md = .clarificationRequired ↔
        ∃ k ∈ requiredClarificationKeys, missingOrBlank md k) ∧
      (intakeStatus md = .queued ↔
        ∀ k ∈ requiredClarificationKeys, ¬ missingOrBlank md k) ∧
      (∀ jobs j, claimNextQueuedJob jobs = some j → j.status = .queued) := by
  have hmem : ∀ k, k ∈ collectClarificationPrompts md ↔
      k ∈ requiredClarificationKeys ∧ missingOrBlank md k := by
    intro k
    unfold collectClarificationPrompts
    rw [List.mem_filter]
    exact and_congr_right fun _ => clarification_filter_iff md k
  have hlen : (collectClarificationPrompts md).length ≠ 0 ↔
      ∃ k ∈ requiredClarificationKeys, missingOrBlank md k := by
    rw [Ne, List.length_eq_zero, List.eq_nil_iff_forall_not_mem]
    constructor
    · intro h
      by_contra hno
      push_neg at hno
      exact h fun k hk => hno k ((hmem k).mp hk).1 ((hmem k).mp hk).2
    · rintro ⟨k, hk, hmb⟩ h
      exact h k ((hmem k).mpr ⟨hk, hmb⟩)
  refine ⟨?_, ?_, ?_⟩
  · unfold intakeStatus
    split
    · next h => simpa using hlen.mp h
    · next h =>
      simp only [reduceCtorEq, false_iff]
      intro hex
      exact h (hlen.mpr hex)
  · unfold intakeStatus
    split
    · next h =>
      simp only [reduceCtorEq, false_iff]
      intro hall
      obtain ⟨k, hk, hmb⟩ := hlen.mp h
      exact hall k hk hmb
    · next h =>
      simp only [true_iff]
      intro k hk hmb
      exact h (hlen.mpr ⟨k, hk, hmb⟩)
  · intro jobs j hclaim
    have := List.find?_some hclaim
    simpa using this

/-- C8 witness: a metadata bag with a blank `region_focus` yields
clarification_required; the full bag yields queued; the claimer on a
two-row table returns the queued row. -/
theorem intake_gates_witness :
    intakeStatus [("time_horizon", .strV "12-18 months"), ("region_focus", .strV "  ")] =
        .clarificationRequired ∧
      intakeStatus fullMetadata = .queued ∧
      (claimNextQueuedJob
          [{ id := 1, status := .clarificationRequired, created_at := 0 },
           { id := 2, status := .queued, created_at := 5 }]).map (fun j => j.status) =
        some .queued := by
  refine ⟨?_, ?_, ?_⟩
  · refine (intake_gates_on_clarification _).1.mpr ⟨"region_focus", by decide, ?_⟩
    show blankValue (MetaValue.strV "  ")
    unfold blankValue
    decide
  · decide
  · have h : claimNextQueuedJob
        [{ id := 1, status := .clarificationRequired, created_at := 0 },
         { id := 2, status := .queued, created_at := 5 }] =
        some { id := 2, status := .queued, created_at := 5 } := by decide
    rw [h]
    have := (intake_gates_on_clarification fullMetadata).2.2 _ _ h
    simp [this]

/-! ## C3: citation-ledger lemmas -/

/-- The job's ledger has at most one entry per source hash. -/
def HashesNodup (ledger : List LedgerEntry) : Prop :=
  (ledger.map fun e => e.source_hash).Nodup

/-- Folding `max` over `1..n` yields `n`. -/
theorem foldl_max_range' (n : Nat) : (List.range' 1 n).foldl max 0 = n := by
  induction n with
  | zero => rfl
  | succ n ih =>
    rw [List.range'_concat, List.foldl_append]
    simp [ih]
    omega

/-- On a dense ledger the maximum citation number is the entry count. -/
theorem maxCitationNumber_dense {ledger : List LedgerEntry}
    (h : DenseLedger ledger) : maxCitationNumber ledger = ledger.length := by
  have hmap : maxCitationNumber ledger =
      (ledger.map fun e => e.citation_number).foldl max 0 := by
    rw [List.foldl_map]
    rfl
  rw [hmap, h, foldl_max_range']

/-- A hash found in the ledger is still found after any single
assignment: `ensureCitationNumber` only appends. -/
theorem findCitation_persists_ensure (ledger : List LedgerEntry) (s : SourceRec)
    {hh : String} {e : LedgerEntry} (h : findCitationByHash ledger hh = some e) :
    findCitationByHash (ensureCitationNumber ledger s).2 hh = some e := by
  unfold ensureCitationNumber
  cases hfind : findCitationByHash ledger (hashSource s) with
  | some d => simpa using h
  | none =>
    simp only
    unfold findCitationByHash at h ⊢
    rw [List.find?_append, h]
    rfl

/-- A hash found in the ledger is still found, with the same entry, after
any further assignment sequence. -/
theorem findCitation_persists_run (srcs : List SourceRec) :
    ∀ (ledger : List LedgerEntry) {hh : String} {e : LedgerEntry},
      findCitationByHash ledger hh = some e →
      findCitationByHash (assignRun srcs ledger).2 hh = some e := by
  induction srcs with
  | nil => intro ledger hh e h; simpa [assignRun] using h
  | cons s rest ih =>
    intro ledger hh e h
    simpa [assignRun] using
      ih (ensureCitationNumber ledger s).2 (findCitation_persists_ensure ledger s h)

/-- After one assignment the source's hash maps to an entry carrying
exactly the returned citation number. -/
theorem ensure_lookup_self (ledger : List LedgerEntry) (s : SourceRec) :
    ∃ e, findCitationByHash (ensureCitationNumber ledger s).2 (hashSource s) = some e ∧
      e.citation_number = (ensureCitationNumber ledger s).1 := by
  cases hfind : findCitationByHash ledger (hashSource s) with
  | some e =>
    refine ⟨e, ?_, ?_⟩ <;> simp [ensureCitationNumber, hfind]
  | none =>
    refine ⟨{ source_hash := hashSource s,
              citation_number := getNextCitationNumber ledger,
              title := (s.title <|> s.url), url := s.url }, ?_, ?_⟩
    · simp only [ensureCitationNumber, hfind]
      unfold findCitationByHash at hfind ⊢
      rw [List.find?_append, hfind]
      simp [List.find?]
    · simp [ensureCitationNumber, hfind]

/-- Each citation number handed out by a run equals the number recorded
for that source's hash in the final ledger. -/
theorem assignRun_lookup (srcs : List SourceRec) :
    ∀ (ledger : List LedgerEntry) (k : Nat) (s : SourceRec),
      srcs.get? k = some s →
      ∃ e, findCitationByHash (assignRun srcs ledger).2 (hashSource s) = some e ∧
        (assignRun srcs ledger).1.get? k = some e.citation_number := by
  induction srcs with
  | nil => intro ledger k s h; simp at h
  | cons s₀ rest ih =>
    intro ledger k s h
    cases k with
    | zero =>
      obtain rfl : s₀ = s := by simpa using h
      obtain ⟨e, hfind, hnum⟩ := ensure_lookup_self ledger s₀
      exact ⟨e, by simpa [assignRun] using
        findCitation_persists_run rest (ensureCitationNumber ledger s₀).2 hfind,
        by simp [assignRun, hnum]⟩
    | succ k =>
      obtain ⟨e, hfind, hget⟩ :=
        ih (ensureCitationNumber ledger s₀).2 k s (by simpa using h)
      exact ⟨e, by simpa [assignRun] using hfind, by simpa [assignRun] using hget⟩

/-- One assignment preserves density and hash uniqueness. -/
theorem ensure_preserves_inv (ledger : List LedgerEntry) (s : SourceRec)
    (hd : DenseLedger ledger) (hn : HashesNodup ledger) :
    DenseLedger (ensureCitationNumber ledger s).2 ∧
      HashesNodup (ensureCitationNumber ledger s).2 := by
  unfold ensureCitationNumber
  cases hfind : findCitationByHash ledger (hashSource s) with
  | some e => exact ⟨hd, hn⟩
  | none =>
    have hfresh : hashSource s ∉ ledger.map fun e => e.source_hash := by
      intro hmem
      obtain ⟨e, he, heq⟩ := List.mem_map.mp hmem
      have hpred := List.find?_eq_none.mp hfind e he
      simp [heq] at hpred
    constructor
    · show DenseLedger (ledger ++ [_])
      unfold DenseLedger at hd ⊢
      rw [List.map_append, hd, List.length_append]
      simp [getNextCitationNumber, maxCitationNumber_dense hd]
      rw [List.range'_concat]
      congr 1
      simp [Nat.add_comm]
    · show HashesNodup (ledger ++ [_])
      unfold HashesNodup at hn ⊢
      rw [List.map_append]
      simp only [List.map_cons, List.map_nil]
      rw [List.nodup_append]
      exact ⟨hn, List.nodup_singleton _, by simpa using hfresh⟩

/-- A whole run preserves density and hash uniqueness. -/
theorem assignRun_preserves_inv (srcs : List SourceRec) :
    ∀ (ledger : List LedgerEntry), DenseLedger ledger → HashesNodup ledger →
      DenseLedger (assignRun srcs ledger).2 ∧ HashesNodup (assignRun srcs ledger).2 := by
  induction srcs with
  | nil => intro ledger hd hn; exact ⟨hd, hn⟩
  | cons s rest ih =>
    intro ledger hd hn
    obtain ⟨hd', hn'⟩ := ensure_preserves_inv ledger s hd hn
    simpa [assignRun] using ih (ensureCitationNumber ledger s).2 hd' hn'

/-- C3: running any sequence of citation assignments for one job from an
empty ledger (i) leaves the citation numbers a dense `1..N` sequence in
insertion order, (ii) never inserts two entries with the same hash,
(iii) hands equal-triple sources (equal hashes) the same citation number,
and (iv) hands a source with a fresh hash `max(existing) + 1`. -/
theorem citation_assignment_correct (srcs : List SourceRec) :
    DenseLedger (assignRun srcs []).2 ∧
      HashesNodup (assignRun srcs []).2 ∧
      (∀ k₁ k₂ s₁ s₂, srcs.get? k₁ = some s₁ → srcs.get? k₂ = some s₂ →
        hashSource s₁ = hashSource s₂ →
        (assignRun srcs []).1.get? k₁ = (assignRun srcs []).1.get? k₂) ∧
      (∀ ledger s, findCitationByHash ledger (hashSource s) = none →
        (ensureCitationNumber ledger s).1 = maxCitationNumber ledger + 1) := by
  obtain ⟨hd, hn⟩ := assignRun_preserves_inv srcs [] (by rfl) (by simp [HashesNodup])
  refine ⟨hd, hn, ?_, ?_⟩
  · intro k₁ k₂ s₁ s₂ h₁ h₂ hh
    obtain ⟨e₁, hf₁, hg₁⟩ := assignRun_lookup srcs [] k₁ s₁ h₁
    obtain ⟨e₂, hf₂, hg₂⟩ := assignRun_lookup srcs [] k₂ s₂ h₂
    rw [hh] at hf₁
    rw [hf₁] at hf₂
    obtain rfl : e₁ = e₂ := by simpa using hf₂
    rw [hg₁, hg₂]
  · intro ledger s hfind
    simp [ensureCitationNumber, hfind, getNextCitationNumber]

/-- Two demo sources with an identical (url, title, raw_storage_url)
triple and one with a fresh triple. -/
def demoSourceA : SourceRec :=
  { url := some "https://a.example", title := some "A", raw_storage_url := some "raw/a" }

def demoSourceB : SourceRec :=
  { url := some "https://b.example", title := some "B", raw_storage_url := none }

/-- C3 witness: assigning A, B, A hands the first and third assignment the
same number, keeps the ledger dense, and a fresh hash on a concrete
ledger gets `max + 1`. -/
theorem citation_assignment_witness :
    (assignRun [demoSourceA, demoSourceB, demoSourceA] []).1.get? 0 =
        (assignRun [demoSourceA, demoSourceB, demoSourceA] []).1.get? 2 ∧
      DenseLedger (assignRun [demoSourceA, demoSourceB, demoSourceA] []).2 ∧
      (ensureCitationNumber (assignRun [demoSourceA, demoSourceB, demoSourceA] []).2
          { url := some "https://c.example" }).1 =
        maxCitationNumber (assignRun [demoSourceA, demoSourceB, demoSourceA] []).2 + 1 := by
  refine ⟨(citation_assignment_correct _).2.2.1 0 2 demoSourceA demoSourceA rfl rfl rfl,
    (citation_assignment_correct _).1,
    (citation_assignment_correct [demoSourceA, demoSourceB, demoSourceA]).2.2.2
      _ { url := some "https://c.example" } ?_⟩
  decide

/-! ## C9: empty ledger at finalize time -/

/-- C1: scenario S3 — a job with three pending steps is cancelled while
step 2 runs.  The cancel is observed at the post-step-2 checkpoint, which
executes before `processJob`'s `try` block, so the `JobControlError`
escapes to `tick`'s catch handler and the job is marked `error` with the
stringified control signal as error text — the run does not halt
silently.  The same signal observed at the synthesize-phase checkpoint
(inside the `try`) is caught and halts silently, as the claim expects at
every checkpoint. -/
theorem cancel_at_step_boundary_marks_error :
    processJobRun cancelMidStepSchedule 3 =
        .markedError "JobControlError: Job cancelled" ∧
      processJobRun (fun k => if k ≥ 7 then .cancelled else .running) 3 =
        .haltedSilently .cancelled := by
  constructor <;> rfl

end DeepResearch
